import Mathlib

/-! The reveal command of tezpay (`cmd/reveal.go`).

A shallow embedding of `CustomReveal`'s binary codec, of the structural probe
`ensureTagAndSize`, and of the `reveal` workflow, with the properties of the
specification stated over them.

Conventions.
* A Go `byte` is `Fin 256`; a Go `int` is `Int` (the only arithmetic on an `int`
  is `sz - 1` on a size taken from a table, which does not wrap).
* A `*bytes.Buffer` is `Option Buffer` where the code tests it against `nil`,
  and `Buffer` elsewhere.
* The functions of `github.com/trilitech/tzgo` that the code calls are not part
  of this repository; they are the fields of the structure `Tzgo`, and every
  definition of the codec takes one as a parameter.
-/

namespace Tezpay

/-- A Go `byte`. -/
abbrev Byte := Fin 256

/-! ## `bytes.Buffer` (Go standard library) -/

/-- The `lastRead` field of `bytes.Buffer`, restricted to the two values the
byte-level operations produce. -/
inductive ReadOp
  | opInvalid
  | opRead
  deriving DecidableEq, Repr

/-- The state of a `bytes.Buffer`: contents are `buf[off:]`. -/
structure Buffer where
  buf : List Byte
  off : Nat
  lastRead : ReadOp
  deriving DecidableEq, Repr

namespace Buffer

/-- Go `bytes.NewBuffer(data)`. -/
def NewBuffer (data : List Byte) : Buffer := ⟨data, 0, .opInvalid⟩

/-- Go `b.Bytes()`: the unread portion `b.buf[b.off:]`. -/
def Bytes (b : Buffer) : List Byte := b.buf.drop b.off

/-- Go `b.Len()`: `len(b.buf) - b.off`. -/
def Len (b : Buffer) : Nat := b.buf.length - b.off

/-- Go `b.Reset()`. -/
def Reset (_b : Buffer) : Buffer := ⟨[], 0, .opInvalid⟩

/-- Go `b.ReadByte()`: on an empty buffer resets it and returns `io.EOF` (`none`);
otherwise returns `b.buf[b.off]`, advances `off` and records a successful read. -/
def ReadByte (b : Buffer) : Buffer × Option Byte :=
  match b.buf[b.off]? with
  | none => (b.Reset, none)
  | some c => ({ b with off := b.off + 1, lastRead := .opRead }, some c)

/-- Go `b.UnreadByte()`: an error (ignored by every caller here) and no change when
the last operation was not a successful read; otherwise steps `off` back by one. -/
def UnreadByte (b : Buffer) : Buffer :=
  match b.lastRead with
  | .opInvalid => b
  | .opRead => { b with lastRead := .opInvalid, off := b.off - 1 }

/-- Go `b.Next(n)` for `n ≥ 0`: returns and skips the next `min n b.Len()` bytes. -/
def Next (b : Buffer) (n : Nat) : Buffer × List Byte :=
  let m := min n b.Len
  ({ b with off := b.off + m, lastRead := if 0 < m then .opRead else .opInvalid },
    (b.buf.drop b.off).take m)

/-- Go `b.WriteByte(c)`. -/
def WriteByte (b : Buffer) (c : Byte) : Buffer :=
  { b with buf := b.buf ++ [c], lastRead := .opInvalid }

/-- Go `b.Write(p)`. -/
def Write (b : Buffer) (p : List Byte) : Buffer :=
  { b with buf := b.buf ++ p, lastRead := .opInvalid }

/-- The invariant `off ≤ len(buf)` that every `bytes.Buffer` satisfies. -/
def WF (b : Buffer) : Prop := b.off ≤ b.buf.length

instance (b : Buffer) : Decidable b.WF := by unfold WF; infer_instance

end Buffer

/-! ## Types of `tzgo` used by the command -/

/-- Go `tezos.OpType`: the operation kinds; only `OpTypeReveal` is named by the code. -/
inductive OpType
  | reveal
  | other (code : Nat)
  deriving DecidableEq, Repr

/-- The `error` values that the codec can return. -/
inductive Err
  /-- Go `io.EOF` -/
  | eof
  /-- Go `io.ErrShortBuffer` -/
  | shortBuffer
  /-- Go `fmt.Errorf("invalid tag %d for op type %s", tag, typ)` -/
  | invalidTag (tag : Byte) (typ : OpType)
  /-- Any other error of a field decoder of the library -/
  | field (msg : String)
  deriving DecidableEq, Repr

/-- Go `tezos.Params`, of which the codec reads `OperationTagsVersion`. -/
structure Params where
  OperationTagsVersion : Int
  deriving DecidableEq, Repr

/-- Go `tezos.Address`: the tagged hash bytes. -/
structure Address where
  bytes : List Byte
  deriving DecidableEq, Repr

/-- Go `codec.Manager`: the fields shared by manager operations. -/
structure Manager where
  Source : Address
  Fee : Int
  Counter : Int
  GasLimit : Int
  StorageLimit : Int
  deriving DecidableEq, Repr

/-- Go `tezos.KeyType`. -/
inductive KeyType
  | Ed25519
  | Secp256k1
  | P256
  | Bls12_381
  | Invalid
  deriving DecidableEq, Repr

/-- Go `tezos.Key`; the field `Type` is written `Typ`. -/
structure Key where
  Typ : KeyType
  Data : List Byte
  deriving DecidableEq, Repr

/-- The library functions called by the codec.  `ManagerBytes m p` is the byte
string that `Manager.EncodeBuffer(buf, p)` appends to `buf`; the two decoders
act on the receiver and on the buffer and return an error or `nil`. -/
structure Tzgo where
  /-- Go `OpType.TagVersion(ver)` -/
  TagVersion : OpType → Int → Byte
  /-- Go `OpType.MinSizeVersion(ver)` -/
  MinSizeVersion : OpType → Int → Int
  /-- The bytes appended by `Manager.EncodeBuffer(buf, p)`, whose error result the caller drops -/
  ManagerBytes : Manager → Params → List Byte
  /-- Go `(*Manager).DecodeBuffer` -/
  ManagerDecodeBuffer : Manager → Buffer → Params → Manager × Buffer × Option Err
  /-- Go `Key.Bytes()` -/
  KeyBytes : Key → List Byte
  /-- Go `(*Key).DecodeBuffer` -/
  KeyDecodeBuffer : Key → Buffer → Key × Buffer × Option Err
  /-- Go `tezos.DefaultParams` -/
  DefaultParams : Params

/-! ## `CustomReveal` and its codec -/

/-- Go `CustomReveal`: a manager operation carrying a public key. -/
structure CustomReveal where
  Manager : Manager
  PublicKey : Key
  deriving DecidableEq, Repr

/-- Go `CustomReveal.Kind`. -/
def CustomReveal.Kind (_o : CustomReveal) : OpType := OpType.reveal

/-- Go `ensureTagAndSize(buf, typ, ver)`: returns the buffer after the call and the
error (`none` for `nil`).  The line printed to standard output on the
short-buffer path is left out. -/
def ensureTagAndSize (L : Tzgo) (buf : Option Buffer) (typ : OpType) (ver : Int) :
    Option Buffer × Option Err :=
  match buf with
  | none => (none, some Err.shortBuffer)
  | some b =>
    match b.ReadByte with
    | (b1, none) =>
      -- unread so the caller is able to repair
      (some b1.UnreadByte, some Err.eof)
    | (b1, some tag) =>
      if tag ≠ L.TagVersion typ ver then
        -- unread so the caller is able to repair
        (some b1.UnreadByte, some (Err.invalidTag tag typ))
      else
        -- don't fail size checks for undefined ops
        let sz := L.MinSizeVersion typ ver
        if (b1.Len : Int) < sz - 1 then
          (some b1.UnreadByte, some Err.shortBuffer)
        else
          (some b1, none)

/-- Go `CustomReveal.EncodeBuffer(buf, p)`: the buffer after the call and the
returned error. -/
def CustomReveal.EncodeBuffer (L : Tzgo) (o : CustomReveal) (buf : Buffer) (p : Params) :
    Buffer × Option Err :=
  let buf := buf.WriteByte (L.TagVersion o.Kind p.OperationTagsVersion)
  let buf := buf.Write (L.ManagerBytes o.Manager p)
  let buf := buf.Write (L.KeyBytes o.PublicKey)
  let buf := buf.Write [0]
  (buf, none)

/-- Go `(*CustomReveal).DecodeBuffer(buf, p)`: the receiver after the call, the
buffer after the call and the returned error. -/
def CustomReveal.DecodeBuffer (L : Tzgo) (o : CustomReveal) (buf : Option Buffer) (p : Params) :
    CustomReveal × Option Buffer × Option Err :=
  match ensureTagAndSize L buf o.Kind p.OperationTagsVersion with
  | (buf1, some err) => (o, buf1, some err)
  | (none, none) => (o, none, none)
  | (some b1, none) =>
    match L.ManagerDecodeBuffer o.Manager b1 p with
    | (m, b2, some err) => ({ o with Manager := m }, some b2, some err)
    | (m, b2, none) =>
      match L.KeyDecodeBuffer o.PublicKey b2 with
      | (k, b3, err) => ({ Manager := m, PublicKey := k }, some b3, err)

/-- Go `CustomReveal.MarshalBinary()`. -/
def CustomReveal.MarshalBinary (L : Tzgo) (o : CustomReveal) : List Byte × Option Err :=
  let buf := Buffer.NewBuffer []
  match o.EncodeBuffer L buf L.DefaultParams with
  | (buf, err) => (buf.Bytes, err)

/-- Go `(*CustomReveal).UnmarshalBinary(data)`: the receiver after the call and the
returned error. -/
def CustomReveal.UnmarshalBinary (L : Tzgo) (o : CustomReveal) (data : List Byte) :
    CustomReveal × Option Err :=
  match o.DecodeBuffer L (some (Buffer.NewBuffer data)) L.DefaultParams with
  | (o1, _, err) => (o1, err)

/-! ## A reference instance of the library interface

The instance follows the wire format of the chain: the reveal tag is 7 under
operation-tags version 0 and 107 afterwards, a manager operation is a 21-byte
source followed by four base-128 naturals (fee, counter, gas limit, storage
limit), a key is a one-byte curve tag followed by the key data.  It is used to
evaluate the codec on concrete inputs. -/

/-- Base-128 little-endian bytes of a natural, at most `fuel + 1` of them. -/
def encodeN : Nat → Nat → List Byte
  | 0, x => [Fin.ofNat x]
  | fuel + 1, x =>
    if x < 128 then [Fin.ofNat x] else Fin.ofNat (x % 128 + 128) :: encodeN fuel (x / 128)

/-- Reads a base-128 natural: the value and the number of bytes read. -/
def parseN : Nat → List Byte → Except Err (Nat × Nat)
  | _, [] => .error Err.shortBuffer
  | 0, _ :: _ => .error (Err.field "numeric overflow")
  | fuel + 1, c :: t =>
    if c.val < 128 then .ok (c.val, 1)
    else
      match parseN fuel t with
      | .ok (v, n) => .ok (c.val - 128 + 128 * v, n + 1)
      | .error e => .error e

/-- Bytes of a manager operation's shared fields. -/
def managerBytes (m : Manager) : List Byte :=
  m.Source.bytes ++ encodeN 9 m.Fee.toNat ++ encodeN 9 m.Counter.toNat
    ++ encodeN 9 m.GasLimit.toNat ++ encodeN 9 m.StorageLimit.toNat

/-- Reads a manager operation's shared fields: the value and the number of bytes read. -/
def parseManager (bs : List Byte) : Except Err (Manager × Nat) :=
  if bs.length < 21 then .error (Err.field "invalid binary address length")
  else
    match parseN 9 (bs.drop 21) with
    | .error e => .error e
    | .ok (fee, n1) =>
      match parseN 9 (bs.drop (21 + n1)) with
      | .error e => .error e
      | .ok (counter, n2) =>
        match parseN 9 (bs.drop (21 + n1 + n2)) with
        | .error e => .error e
        | .ok (gas, n3) =>
          match parseN 9 (bs.drop (21 + n1 + n2 + n3)) with
          | .error e => .error e
          | .ok (storage, n4) =>
            .ok (⟨⟨bs.take 21⟩, fee, counter, gas, storage⟩, 21 + n1 + n2 + n3 + n4)

/-- The curve tag of a key type. -/
def KeyType.Tag : KeyType → Byte
  | .Ed25519 => 0
  | .Secp256k1 => 1
  | .P256 => 2
  | .Bls12_381 => 3
  | .Invalid => 255

/-- The length of the key data of a key type. -/
def KeyType.Len : KeyType → Nat
  | .Ed25519 => 32
  | .Secp256k1 => 33
  | .P256 => 33
  | .Bls12_381 => 48
  | .Invalid => 0

/-- The key type of a curve tag. -/
def ParseKeyTag (c : Byte) : Option KeyType :=
  if c = 0 then some .Ed25519
  else if c = 1 then some .Secp256k1
  else if c = 2 then some .P256
  else if c = 3 then some .Bls12_381
  else none

/-- Bytes of a key: nothing for a key of invalid type. -/
def keyBytes (k : Key) : List Byte :=
  if k.Typ = KeyType.Invalid then [] else k.Typ.Tag :: k.Data

/-- Reads a key: the value and the number of bytes read. -/
def parseKey (bs : List Byte) : Except Err (Key × Nat) :=
  if bs.length < 33 then .error (Err.field "invalid binary key length")
  else
    match bs with
    | [] => .error (Err.field "invalid binary key length")
    | c :: t =>
      match ParseKeyTag c with
      | none => .error (Err.field "invalid binary key type")
      | some typ =>
        if t.length < typ.Len then .error (Err.field "invalid binary key length")
        else .ok (⟨typ, t.take typ.Len⟩, 1 + typ.Len)

/-- Runs a reader on the unread bytes of a buffer and skips what it read; on an
error the receiver and the buffer are left as they were. -/
def liftDecode {α : Type} (parse : List Byte → Except Err (α × Nat)) (x0 : α) (b : Buffer) :
    α × Buffer × Option Err :=
  match parse b.Bytes with
  | .ok (x, n) => (x, (b.Next n).1, none)
  | .error e => (x0, b, some e)

/-- The reference instance. -/
def tzgoRef : Tzgo where
  TagVersion := fun typ ver =>
    match typ with
    | .reveal => if ver = 0 then 7 else 107
    | .other _ => 255
  MinSizeVersion := fun typ _ =>
    match typ with
    | .reveal => 26 + 32
    | .other _ => 0
  ManagerBytes := fun m _ => managerBytes m
  ManagerDecodeBuffer := fun m0 b _ => liftDecode parseManager m0 b
  KeyBytes := keyBytes
  KeyDecodeBuffer := fun k0 b => liftDecode parseKey k0 b
  DefaultParams := ⟨2⟩

/-- The reference instance with every minimum size undefined. -/
def tzgoNoMinSize : Tzgo := { tzgoRef with MinSizeVersion := fun _ _ => 0 }

/-- A sample source address: tag 0 and twenty hash bytes. -/
def sampleAddress : Address := ⟨0 :: List.replicate 20 17⟩

/-- A sample Ed25519 key. -/
def sampleKey : Key := ⟨KeyType.Ed25519, List.replicate 32 42⟩

/-- A sample reveal operation. -/
def sampleReveal : CustomReveal :=
  ⟨⟨sampleAddress, 300, 7, 180, 0⟩, sampleKey⟩

/-- A reveal operation whose key has an unknown type. -/
def invalidKeyReveal : CustomReveal :=
  ⟨⟨sampleAddress, 300, 7, 180, 0⟩, ⟨KeyType.Invalid, [1, 2, 3]⟩⟩

/-! ## Laws of the library codec

The codec of `CustomReveal` calls the library for the shared fields and for the
key.  The two predicates below say that the library reads back what it wrote
for one given value, when `rest` follows it in the buffer. -/

/-- The manager decoder, run on any buffer whose unread bytes are the manager
bytes of `m` followed by `rest`, returns `m` without error and leaves `rest`. -/
def Tzgo.ManagerRoundTrip (L : Tzgo) (m : Manager) (p : Params) (rest : List Byte) : Prop :=
  ∀ (m0 : Manager) (b : Buffer), b.Bytes = L.ManagerBytes m p ++ rest →
    ∃ b1, L.ManagerDecodeBuffer m0 b p = (m, b1, none) ∧ b1.Bytes = rest

/-- The key decoder, run on any buffer whose unread bytes are the key bytes of
`k` followed by `rest`, returns `k` without error and leaves `rest`. -/
def Tzgo.KeyRoundTrip (L : Tzgo) (k : Key) (rest : List Byte) : Prop :=
  ∀ (k0 : Key) (b : Buffer), b.Bytes = L.KeyBytes k ++ rest →
    ∃ b1, L.KeyDecodeBuffer k0 b = (k, b1, none) ∧ b1.Bytes = rest

/-- The bytes that `EncodeBuffer` appends for `o` under `p`. -/
def CustomReveal.wire (L : Tzgo) (o : CustomReveal) (p : Params) : List Byte :=
  L.TagVersion OpType.reveal p.OperationTagsVersion
    :: (L.ManagerBytes o.Manager p ++ L.KeyBytes o.PublicKey ++ [0])

/-! ## The `reveal` workflow

The run of `reveal` is a function of what its collaborators answer.  The
collaborators (the key-management client, the PEM and X.509 parsers, the RPC
client and the operation builder of the library) are the fields of `Adapters`;
`reveal` returns the calls it made, in order, and how it ended.  Logging and the
context argument are left out; the local `opt` is assigned and never read. -/

/-- Go `tezos.SignatureType`. -/
inductive SignatureType
  | Ed25519
  | Secp256k1
  | P256
  | Bls12_381
  | Generic
  | Invalid
  deriving DecidableEq, Repr

/-- Go `tezos.Signature`; the field `Type` is written `Typ`. -/
structure Signature where
  Typ : SignatureType
  Data : List Byte
  deriving DecidableEq, Repr

/-- Go `codec.Op`: the source, the contents, the signature, and the remaining
fields (branch, chain id, params, ...) together as `Rest`. -/
structure Op (R : Type) where
  Source : Address
  Contents : List CustomReveal
  Signature : Signature
  Rest : R
  deriving DecidableEq, Repr

/-- The value returned by `x509.ParsePKIXPublicKey`, of dynamic type
`ed25519.PublicKey` or of another type. -/
inductive PKIXPublicKey
  | ed25519 (data : List Byte)
  | otherKey
  deriving DecidableEq, Repr

/-- Go `errors.Wrap(cause, message)`. -/
structure WrappedError (E : Type) where
  cause : E
  message : String
  deriving DecidableEq, Repr

/-- The answers of the collaborators of `reveal`. -/
structure Adapters (R E : Type) where
  /-- Go `kms.NewKeyManagementClient`: the error, if any -/
  NewKeyManagementClient : Option E
  /-- Go `client.GetPublicKey` on a request of the given name: the PEM text -/
  GetPublicKey : String → Except E String
  /-- Go `pem.Decode`: the bytes of the block, or no block -/
  pemDecode : String → Option (List Byte)
  /-- Go `x509.ParsePKIXPublicKey` -/
  ParsePKIXPublicKey : List Byte → Except E PKIXPublicKey
  /-- Go `rpc.NewClient` on a URL: the error, if any -/
  NewClient : String → Option E
  /-- Go `rpcClient.GetChainId` -/
  GetChainId : Except E (List Byte)
  /-- Go `key.Address()` -/
  KeyAddress : Key → Address
  /-- Go `codec.NewOp()` -/
  NewOp : Op R
  /-- Go `op.WithSource(address)` -/
  WithSource : Op R → Address → Op R
  /-- Go `op.WithContents(o)` -/
  WithContents : Op R → CustomReveal → Op R
  /-- Go `op.WithMinFee()` -/
  WithMinFee : Op R → Op R
  /-- Go `rpcClient.Complete(ctx, op, key)` on a client of the given chain id: the
  operation after the call and the error, if any -/
  Complete : List Byte → Op R → Key → Op R × Option E
  /-- Go `op.Digest()` -/
  Digest : Op R → List Byte
  /-- Go `client.AsymmetricSign` on a request of the given name and data: the
  signature bytes of the response -/
  AsymmetricSign : String → List Byte → Except E (List Byte)
  /-- Go `rpcClient.Broadcast(ctx, op)` on a client of the given chain id: the
  operation hash -/
  Broadcast : List Byte → Op R → Except E (List Byte)

/-- A call made by `reveal`, with its arguments. -/
inductive Call (R : Type)
  | NewKeyManagementClient
  | GetPublicKey (name : String)
  | ParsePKIXPublicKey (der : List Byte)
  | NewClient (url : String)
  | GetChainId
  | Complete (op : Op R) (key : Key)
  | AsymmetricSign (name : String) (data : List Byte)
  | Broadcast (op : Op R)
  | Close
  deriving DecidableEq, Repr

/-- How a run of `reveal` ends: it returns an error or `nil` to its caller, or
`log.Fatalf` ends the process, or it panics. -/
inductive Outcome (E : Type)
  | returned (err : Option (WrappedError E))
  | fatal (cause : E)
  | panicked
  deriving DecidableEq, Repr

/-- The operation that `reveal` builds before completion. -/
def revealOp {R E : Type} (A : Adapters R E) (key : Key) : Op R :=
  let address := A.KeyAddress key
  A.WithMinFee (A.WithContents (A.WithSource A.NewOp address)
    { Manager := { Source := address, Fee := 300, Counter := 0, GasLimit := 180,
                   StorageLimit := 0 },
      PublicKey := key })

/-- Go `reveal(ctx, rpcURL, kmsSource)`: the calls made and the outcome.  The
two deferred `client.Close()` run when the function returns or panics, not when
`log.Fatalf` ends the process. -/
def reveal {R E : Type} (A : Adapters R E) (rpcURL kmsSource : String) :
    List (Call R) × Outcome E :=
  match A.NewKeyManagementClient with
  | some err => ([.NewKeyManagementClient], .returned (some ⟨err, "creating kms client"⟩))
  | none =>
    match A.GetPublicKey kmsSource with
    | .error err =>
      ([.NewKeyManagementClient, .GetPublicKey kmsSource, .Close],
        .returned (some ⟨err, "getting public key"⟩))
    | .ok pk =>
      match A.pemDecode pk with
      | none => ([.NewKeyManagementClient, .GetPublicKey kmsSource, .Close], .panicked)
      | some der =>
        match A.ParsePKIXPublicKey der with
        | .error err =>
          ([.NewKeyManagementClient, .GetPublicKey kmsSource, .ParsePKIXPublicKey der, .Close],
            .returned (some ⟨err, "parsing public key"⟩))
        | .ok pub =>
          match pub with
          | .otherKey =>
            ([.NewKeyManagementClient, .GetPublicKey kmsSource, .ParsePKIXPublicKey der,
              .Close, .Close], .panicked)
          | .ed25519 data =>
            let key : Key := { Typ := KeyType.Ed25519, Data := data }
            match A.NewClient rpcURL with
            | some err =>
              ([.NewKeyManagementClient, .GetPublicKey kmsSource, .ParsePKIXPublicKey der,
                .NewClient rpcURL, .Close, .Close],
                .returned (some ⟨err, "creating rpc client"⟩))
            | none =>
              match A.GetChainId with
              | .error err =>
                ([.NewKeyManagementClient, .GetPublicKey kmsSource, .ParsePKIXPublicKey der,
                  .NewClient rpcURL, .GetChainId, .Close, .Close],
                  .returned (some ⟨err, "getting chain id"⟩))
              | .ok chainID =>
                let op := revealOp A key
                match A.Complete chainID op key with
                | (_, some err) =>
                  ([.NewKeyManagementClient, .GetPublicKey kmsSource, .ParsePKIXPublicKey der,
                    .NewClient rpcURL, .GetChainId, .Complete op key, .Close, .Close],
                    .returned (some ⟨err, "failed to complete sign"⟩))
                | (op1, none) =>
                  match A.AsymmetricSign kmsSource (A.Digest op1) with
                  | .error err =>
                    ([.NewKeyManagementClient, .GetPublicKey kmsSource, .ParsePKIXPublicKey der,
                      .NewClient rpcURL, .GetChainId, .Complete op key,
                      .AsymmetricSign kmsSource (A.Digest op1)], .fatal err)
                  | .ok sig =>
                    let op2 : Op R :=
                      { op1 with Signature := { Typ := SignatureType.Ed25519, Data := sig } }
                    match A.Broadcast chainID op2 with
                    | .error err =>
                      ([.NewKeyManagementClient, .GetPublicKey kmsSource,
                        .ParsePKIXPublicKey der, .NewClient rpcURL, .GetChainId,
                        .Complete op key, .AsymmetricSign kmsSource (A.Digest op1),
                        .Broadcast op2, .Close, .Close],
                        .returned (some ⟨err, "broadcast operation"⟩))
                    | .ok _ =>
                      ([.NewKeyManagementClient, .GetPublicKey kmsSource,
                        .ParsePKIXPublicKey der, .NewClient rpcURL, .GetChainId,
                        .Complete op key, .AsymmetricSign kmsSource (A.Digest op1),
                        .Broadcast op2, .Close, .Close],
                        .returned none)

/-- Sample collaborators that all answer: the key service holds an Ed25519 key,
the node completes the operation with counter 7, the signer returns 64 bytes. -/
def sampleAdapters : Adapters Unit String where
  NewKeyManagementClient := none
  GetPublicKey := fun _ => .ok "PEM"
  pemDecode := fun _ => some [48, 42]
  ParsePKIXPublicKey := fun _ => .ok (.ed25519 (List.replicate 32 42))
  NewClient := fun _ => none
  GetChainId := .ok [1, 2, 3, 4]
  KeyAddress := fun _ => sampleAddress
  NewOp := ⟨⟨[]⟩, [], ⟨SignatureType.Invalid, []⟩, ()⟩
  WithSource := fun op a => { op with Source := a }
  WithContents := fun op o => { op with Contents := op.Contents ++ [o] }
  WithMinFee := fun op => op
  Complete := fun _ op _ =>
    (⟨op.Source, op.Contents.map (fun o => ⟨{ o.Manager with Counter := 7 }, o.PublicKey⟩),
      op.Signature, op.Rest⟩, none)
  Digest := fun op => (op.Contents.map (fun o => (o.MarshalBinary tzgoRef).1)).flatten
  AsymmetricSign := fun _ _ => .ok (List.replicate 64 5)
  Broadcast := fun _ _ => .ok [9]

/-- The operation that the run with the sample collaborators broadcasts. -/
def sampleSignedOp : Op Unit :=
  ⟨sampleAddress, [sampleReveal], ⟨SignatureType.Ed25519, List.replicate 64 5⟩, ()⟩

/-- The sample collaborators with a signer that refuses. -/
def refusingSigner : Adapters Unit String :=
  { sampleAdapters with AsymmetricSign := fun _ _ => .error "denied" }

/-! ## Facts about the buffer model -/

theorem Buffer.Len_eq (b : Buffer) : b.Len = b.Bytes.length := by
  simp [Buffer.Len, Buffer.Bytes]

theorem Buffer.ReadByte_nil (b : Buffer) (h : b.Bytes = []) :
    b.ReadByte = (b.Reset, none) := by
  have h1 : b.buf[b.off]? = none := by
    have := List.head?_drop b.buf b.off
    rw [← Buffer.Bytes, h] at this
    simpa using this.symm
  simp [Buffer.ReadByte, h1]

theorem Buffer.ReadByte_cons (b : Buffer) (c : Byte) (t : List Byte) (h : b.Bytes = c :: t) :
    b.ReadByte = ({ b with off := b.off + 1, lastRead := .opRead }, some c) := by
  have h1 : b.buf[b.off]? = some c := by
    have := List.head?_drop b.buf b.off
    rw [← Buffer.Bytes, h] at this
    simpa using this.symm
  simp [Buffer.ReadByte, h1]

theorem Buffer.Bytes_advance (b : Buffer) (c : Byte) (t : List Byte) (r : ReadOp)
    (h : b.Bytes = c :: t) :
    Buffer.Bytes { b with off := b.off + 1, lastRead := r } = t := by
  have : List.drop 1 (List.drop b.off b.buf) = t := by
    rw [← Buffer.Bytes, h]; rfl
  simpa [Buffer.Bytes, List.drop_drop, Nat.add_comm] using this

theorem Buffer.Bytes_Reset_UnreadByte (b : Buffer) : b.Reset.UnreadByte.Bytes = [] := rfl

theorem Buffer.Bytes_advance_UnreadByte (b : Buffer) :
    (Buffer.UnreadByte { b with off := b.off + 1, lastRead := .opRead }).Bytes = b.Bytes := by
  simp [Buffer.UnreadByte, Buffer.Bytes]

theorem Buffer.Bytes_Next (b : Buffer) (n : Nat) : (b.Next n).1.Bytes = b.Bytes.drop n := by
  simp only [Buffer.Next, Buffer.Bytes, Buffer.Len]
  rcases Nat.le_total n (b.buf.length - b.off) with h | h
  · rw [Nat.min_eq_left h, List.drop_drop]
  · rw [Nat.min_eq_right h, List.drop_of_length_le (by omega),
      List.drop_of_length_le (by simpa using h)]

theorem Buffer.Bytes_Write (b : Buffer) (p : List Byte) (h : b.WF) :
    (b.Write p).Bytes = b.Bytes ++ p := by
  simp only [Buffer.Write, Buffer.Bytes]
  exact List.drop_append_of_le_length h

theorem Buffer.Bytes_WriteByte (b : Buffer) (c : Byte) (h : b.WF) :
    (b.WriteByte c).Bytes = b.Bytes ++ [c] := by
  simp only [Buffer.WriteByte, Buffer.Bytes]
  exact List.drop_append_of_le_length h

/-! ## The structural probe `ensureTagAndSize` -/

theorem ensureTagAndSize_nil_buffer (L : Tzgo) (typ : OpType) (ver : Int) :
    ensureTagAndSize L none typ ver = (none, some Err.shortBuffer) := rfl

theorem ensureTagAndSize_empty (L : Tzgo) (b : Buffer) (typ : OpType) (ver : Int)
    (h : b.Bytes = []) :
    ensureTagAndSize L (some b) typ ver = (some b.Reset.UnreadByte, some Err.eof) := by
  simp [ensureTagAndSize, Buffer.ReadByte_nil b h]

theorem ensureTagAndSize_cons (L : Tzgo) (b : Buffer) (typ : OpType) (ver : Int)
    (c : Byte) (t : List Byte) (h : b.Bytes = c :: t) :
    ensureTagAndSize L (some b) typ ver =
      if c ≠ L.TagVersion typ ver then
        (some (Buffer.UnreadByte { b with off := b.off + 1, lastRead := .opRead }),
          some (Err.invalidTag c typ))
      else if (t.length : Int) < L.MinSizeVersion typ ver - 1 then
        (some (Buffer.UnreadByte { b with off := b.off + 1, lastRead := .opRead }),
          some Err.shortBuffer)
      else (some { b with off := b.off + 1, lastRead := .opRead }, none) := by
  have hl : (Buffer.Len { b with off := b.off + 1, lastRead := .opRead }) = t.length := by
    rw [Buffer.Len_eq, Buffer.Bytes_advance b c t _ h]
  simp only [ensureTagAndSize, Buffer.ReadByte_cons b c t h, hl]

/-- A buffer that is `nil` is never returned without an error. -/
theorem ensureTagAndSize_ok_some (L : Tzgo) (buf : Option Buffer) (typ : OpType) (ver : Int)
    (h : (ensureTagAndSize L buf typ ver).2 = none) :
    ∃ b1, (ensureTagAndSize L buf typ ver).1 = some b1 := by
  cases buf with
  | none => simp [ensureTagAndSize] at h
  | some b =>
    cases hb : b.Bytes with
    | nil => rw [ensureTagAndSize_empty L b typ ver hb] at h; simp at h
    | cons c t =>
      rw [ensureTagAndSize_cons L b typ ver c t hb] at h ⊢
      split_ifs at h ⊢
      simp

/-- What `DecodeBuffer` returns when the probe fails. -/
theorem DecodeBuffer_of_probe_error (L : Tzgo) (o : CustomReveal) (buf : Option Buffer)
    (p : Params) (buf1 : Option Buffer) (e : Err)
    (h : ensureTagAndSize L buf o.Kind p.OperationTagsVersion = (buf1, some e)) :
    o.DecodeBuffer L buf p = (o, buf1, some e) := by
  simp [CustomReveal.DecodeBuffer, h]

/-- What `DecodeBuffer` does once the probe has succeeded. -/
theorem DecodeBuffer_of_probe_ok (L : Tzgo) (o : CustomReveal) (buf : Option Buffer)
    (p : Params) (b1 : Buffer)
    (h : ensureTagAndSize L buf o.Kind p.OperationTagsVersion = (some b1, none)) :
    o.DecodeBuffer L buf p =
      match L.ManagerDecodeBuffer o.Manager b1 p with
      | (m, b2, some err) => ({ o with Manager := m }, some b2, some err)
      | (m, b2, none) =>
        match L.KeyDecodeBuffer o.PublicKey b2 with
        | (k, b3, err) => ({ Manager := m, PublicKey := k }, some b3, err) := by
  simp [CustomReveal.DecodeBuffer, h]

/-! ## Claims about the structural probe -/

/-- Claim C10: `ensureTagAndSize` returns `nil` exactly when the buffer is not
`nil`, has an unread byte, that byte is the tag of the kind for the version and
at least `MinSizeVersion - 1` bytes follow it; on `nil` exactly the tag byte has
been consumed, on an error the unread bytes are those before the call. -/
theorem ensureTagAndSize_characterisation (L : Tzgo) (buf : Option Buffer) (typ : OpType)
    (ver : Int) :
    ((ensureTagAndSize L buf typ ver).2 = none ↔
      ∃ b c rest, buf = some b ∧ b.Bytes = c :: rest ∧ c = L.TagVersion typ ver ∧
        L.MinSizeVersion typ ver - 1 ≤ (rest.length : Int)) ∧
    ((ensureTagAndSize L buf typ ver).2 = none →
      ∃ b b1 c, buf = some b ∧ (ensureTagAndSize L buf typ ver).1 = some b1 ∧
        b.Bytes = c :: b1.Bytes) ∧
    ((ensureTagAndSize L buf typ ver).2 ≠ none →
      (ensureTagAndSize L buf typ ver).1.map Buffer.Bytes = buf.map Buffer.Bytes) := by
  cases buf with
  | none => simp [ensureTagAndSize]
  | some b =>
    cases hb : b.Bytes with
    | nil =>
      rw [ensureTagAndSize_empty L b typ ver hb]
      simp [hb, Buffer.Bytes_Reset_UnreadByte]
    | cons c t =>
      rw [ensureTagAndSize_cons L b typ ver c t hb]
      by_cases hc : c = L.TagVersion typ ver
      · by_cases hl : (t.length : Int) < L.MinSizeVersion typ ver - 1
        · rw [if_neg (not_not.mpr hc), if_pos hl]
          simp [hb, Buffer.Bytes_advance_UnreadByte]
          omega
        · have hadv := Buffer.Bytes_advance b c t .opRead hb
          rw [if_neg (not_not.mpr hc), if_neg hl]
          exact ⟨⟨fun _ => ⟨b, c, t, rfl, hb, hc, by omega⟩, fun _ => rfl⟩,
            fun _ => ⟨b, _, c, rfl, rfl, by rw [hadv, hb]⟩, fun h => absurd rfl h⟩
      · simp [hc, hb, Buffer.Bytes_advance_UnreadByte]

/-- Claim C2: on a buffer whose first unread byte is not the tag of the kind for
the version, `ensureTagAndSize` and `DecodeBuffer` return the invalid-tag error
and leave the unread bytes as they were. -/
theorem tag_mismatch_restores_buffer (L : Tzgo) (b : Buffer) (c : Byte) (rest : List Byte)
    (typ : OpType) (ver : Int)
    (hb : b.Bytes = c :: rest) (hc : c ≠ L.TagVersion typ ver) :
    ∃ b1, b1.Bytes = b.Bytes ∧
      ensureTagAndSize L (some b) typ ver = (some b1, some (Err.invalidTag c typ)) ∧
      ∀ (o : CustomReveal) (p : Params), typ = o.Kind → ver = p.OperationTagsVersion →
        o.DecodeBuffer L (some b) p = (o, some b1, some (Err.invalidTag c typ)) := by
  refine ⟨Buffer.UnreadByte { b with off := b.off + 1, lastRead := .opRead },
    Buffer.Bytes_advance_UnreadByte b, ?_, ?_⟩
  · rw [ensureTagAndSize_cons L b typ ver c rest hb, if_pos hc]
  · intro o p ht hv
    subst ht hv
    apply DecodeBuffer_of_probe_error
    rw [ensureTagAndSize_cons L b _ _ c rest hb, if_pos hc]

/-- Claim C3: on a buffer whose first unread byte is the tag and in which fewer
than `MinSizeVersion - 1` bytes follow it, `ensureTagAndSize` and `DecodeBuffer`
return `io.ErrShortBuffer` and leave the unread bytes, tag included, as they
were. -/
theorem short_buffer_restores_buffer (L : Tzgo) (b : Buffer) (rest : List Byte)
    (typ : OpType) (ver : Int)
    (hb : b.Bytes = L.TagVersion typ ver :: rest)
    (hlen : (rest.length : Int) < L.MinSizeVersion typ ver - 1) :
    ∃ b1, b1.Bytes = b.Bytes ∧
      ensureTagAndSize L (some b) typ ver = (some b1, some Err.shortBuffer) ∧
      ∀ (o : CustomReveal) (p : Params), typ = o.Kind → ver = p.OperationTagsVersion →
        o.DecodeBuffer L (some b) p = (o, some b1, some Err.shortBuffer) := by
  have key : ensureTagAndSize L (some b) typ ver =
      (some (Buffer.UnreadByte { b with off := b.off + 1, lastRead := .opRead }),
        some Err.shortBuffer) := by
    rw [ensureTagAndSize_cons L b typ ver _ rest hb]
    simp [hlen]
  refine ⟨_, Buffer.Bytes_advance_UnreadByte b, key, ?_⟩
  intro o p ht hv
  subst ht hv
  exact DecodeBuffer_of_probe_error L o _ p _ _ key

/-- Claim C4 as stated fails: a `nil` buffer yields `io.ErrShortBuffer` from
`ensureTagAndSize` and from `DecodeBuffer` also when the minimum size of the
kind is undefined. -/
theorem nil_buffer_short_despite_undefined_min_size :
    ¬ (∀ (L : Tzgo) (o : CustomReveal) (buf : Option Buffer) (p : Params),
        L.MinSizeVersion o.Kind p.OperationTagsVersion = 0 →
          (ensureTagAndSize L buf o.Kind p.OperationTagsVersion).2 ≠ some Err.shortBuffer ∧
          (o.DecodeBuffer L buf p).2.2 ≠ some Err.shortBuffer) := by
  intro h
  exact (h tzgoNoMinSize sampleReveal none ⟨0⟩ rfl).1 rfl

/-- Claim C4, amended: when the minimum size of the kind is undefined (zero) and
the buffer is not `nil`, `ensureTagAndSize` does not return `io.ErrShortBuffer`,
and `DecodeBuffer` returns it only if the probe succeeded and one of the two
field decoders of the library returned it. -/
theorem no_short_buffer_when_min_size_undefined (L : Tzgo) (b : Buffer) (typ : OpType)
    (ver : Int) (h0 : L.MinSizeVersion typ ver = 0) :
    (ensureTagAndSize L (some b) typ ver).2 ≠ some Err.shortBuffer ∧
    ∀ (o : CustomReveal) (p : Params), typ = o.Kind → ver = p.OperationTagsVersion →
      (o.DecodeBuffer L (some b) p).2.2 = some Err.shortBuffer →
        ∃ b1, ensureTagAndSize L (some b) typ ver = (some b1, none) ∧
          ((L.ManagerDecodeBuffer o.Manager b1 p).2.2 = some Err.shortBuffer ∨
            (L.KeyDecodeBuffer o.PublicKey (L.ManagerDecodeBuffer o.Manager b1 p).2.1).2.2
              = some Err.shortBuffer) := by
  have hprobe : (ensureTagAndSize L (some b) typ ver).2 ≠ some Err.shortBuffer := by
    cases hb : b.Bytes with
    | nil => rw [ensureTagAndSize_empty L b typ ver hb]; simp
    | cons c t =>
      rw [ensureTagAndSize_cons L b typ ver c t hb, h0]
      have hl : ¬ ((t.length : Int) < 0 - 1) := by omega
      rw [if_neg hl]
      split_ifs <;> simp
  refine ⟨hprobe, ?_⟩
  intro o p ht hv hd
  subst ht hv
  rcases hres : ensureTagAndSize L (some b) o.Kind p.OperationTagsVersion with ⟨buf1, e⟩
  cases e with
  | some e =>
    rw [DecodeBuffer_of_probe_error L o _ p buf1 e hres] at hd
    rw [hres] at hprobe
    exact absurd hd hprobe
  | none =>
    obtain ⟨b1, hb1⟩ := ensureTagAndSize_ok_some L (some b) o.Kind p.OperationTagsVersion
      (by rw [hres])
    rw [hres] at hb1
    simp only at hb1
    subst hb1
    refine ⟨b1, rfl, ?_⟩
    rw [DecodeBuffer_of_probe_ok L o _ p b1 hres] at hd
    rcases hm : L.ManagerDecodeBuffer o.Manager b1 p with ⟨m, b2, em⟩
    rw [hm] at hd
    cases em with
    | some e => left; simpa using hd
    | none => right; simpa using hd

/-- Witness for `no_short_buffer_when_min_size_undefined`: the one-byte buffer
holding the reveal tag, under an instance whose minimum sizes are undefined. -/
theorem no_short_buffer_when_min_size_undefined_witness :
    tzgoNoMinSize.MinSizeVersion OpType.reveal 1 = 0 ∧
    (ensureTagAndSize tzgoNoMinSize (some (Buffer.NewBuffer [107])) OpType.reveal 1).2
      ≠ some Err.shortBuffer :=
  ⟨rfl, (no_short_buffer_when_min_size_undefined tzgoNoMinSize (Buffer.NewBuffer [107])
    OpType.reveal 1 rfl).1⟩

/-! ## Claims about the encoder -/

/-- Claim C5: `EncodeBuffer` appends to the buffer the tag of the reveal kind for
the operation-tags version of the params, the manager bytes, the key bytes and
one zero byte, in this order and nothing else, and returns no error. -/
theorem EncodeBuffer_layout (L : Tzgo) (o : CustomReveal) (b : Buffer) (p : Params)
    (hwf : b.WF) :
    (o.EncodeBuffer L b p).1.buf =
      b.buf ++ ([L.TagVersion OpType.reveal p.OperationTagsVersion] ++ L.ManagerBytes o.Manager p
        ++ L.KeyBytes o.PublicKey ++ [0]) ∧
    (o.EncodeBuffer L b p).1.Bytes =
      b.Bytes ++ ([L.TagVersion OpType.reveal p.OperationTagsVersion] ++ L.ManagerBytes o.Manager p
        ++ L.KeyBytes o.PublicKey ++ [0]) ∧
    (o.EncodeBuffer L b p).2 = none := by
  have h1 : (o.EncodeBuffer L b p).1.buf =
      b.buf ++ ([L.TagVersion OpType.reveal p.OperationTagsVersion] ++ L.ManagerBytes o.Manager p
        ++ L.KeyBytes o.PublicKey ++ [0]) := by
    simp [CustomReveal.EncodeBuffer, Buffer.Write, Buffer.WriteByte, CustomReveal.Kind]
  have h2 : (o.EncodeBuffer L b p).1.off = b.off := rfl
  refine ⟨h1, ?_, rfl⟩
  rw [Buffer.Bytes, h1, h2]
  exact List.drop_append_of_le_length hwf

/-- Witness for `EncodeBuffer_layout`: the sample operation written after two
bytes of which one has been read. -/
theorem EncodeBuffer_layout_witness :
    Buffer.WF ⟨[9, 8], 1, ReadOp.opRead⟩ ∧
    (sampleReveal.EncodeBuffer tzgoRef ⟨[9, 8], 1, ReadOp.opRead⟩ ⟨1⟩).1.Bytes =
      Buffer.Bytes ⟨[9, 8], 1, ReadOp.opRead⟩ ++ ([tzgoRef.TagVersion OpType.reveal 1]
        ++ tzgoRef.ManagerBytes sampleReveal.Manager ⟨1⟩
        ++ tzgoRef.KeyBytes sampleReveal.PublicKey ++ [0]) :=
  ⟨by decide, (EncodeBuffer_layout tzgoRef sampleReveal ⟨[9, 8], 1, ReadOp.opRead⟩ ⟨1⟩
    (by decide)).2.1⟩

/-- Claim C6 as stated fails: `EncodeBuffer` and `MarshalBinary` return no error
for an operation whose key has an unknown type. -/
theorem encode_invalid_key_returns_nil :
    invalidKeyReveal.PublicKey.Typ = KeyType.Invalid ∧
    (invalidKeyReveal.EncodeBuffer tzgoRef (Buffer.NewBuffer []) tzgoRef.DefaultParams).2 = none ∧
    (invalidKeyReveal.MarshalBinary tzgoRef).2 = none := by
  decide

/-- Claim C6, amended: `EncodeBuffer` and `MarshalBinary` never return an error,
whatever the operation (a key of unknown type included) and the params. -/
theorem encode_never_fails (L : Tzgo) (o : CustomReveal) (b : Buffer) (p : Params) :
    (o.EncodeBuffer L b p).2 = none ∧ (o.MarshalBinary L).2 = none :=
  ⟨rfl, rfl⟩

/-- The bytes returned by `MarshalBinary`. -/
theorem MarshalBinary_bytes (L : Tzgo) (o : CustomReveal) :
    (o.MarshalBinary L).1 =
      L.TagVersion OpType.reveal L.DefaultParams.OperationTagsVersion
        :: (L.ManagerBytes o.Manager L.DefaultParams ++ L.KeyBytes o.PublicKey ++ [0]) := by
  simp [CustomReveal.MarshalBinary, CustomReveal.EncodeBuffer, Buffer.Write, Buffer.WriteByte,
    Buffer.NewBuffer, Buffer.Bytes, CustomReveal.Kind]

/-! ## Decoding what the encoder wrote -/

theorem liftDecode_ok {α : Type} (parse : List Byte → Except Err (α × Nat)) (x0 x : α)
    (b : Buffer) (n : Nat) (h : parse b.Bytes = .ok (x, n)) :
    liftDecode parse x0 b = (x, (b.Next n).1, none) := by
  simp [liftDecode, h]

/-- The reference instance reads back the manager fields of the sample. -/
theorem sample_manager_roundtrip (p : Params) :
    tzgoRef.ManagerRoundTrip sampleReveal.Manager p (tzgoRef.KeyBytes sampleReveal.PublicKey ++ [0]) := by
  intro m0 b hb
  refine ⟨(b.Next 27).1, ?_, ?_⟩
  · show liftDecode parseManager m0 b = _
    exact liftDecode_ok parseManager m0 _ b 27 (by rw [hb]; rfl)
  · rw [Buffer.Bytes_Next, hb]; rfl

/-- The reference instance reads back the key of the sample. -/
theorem sample_key_roundtrip : tzgoRef.KeyRoundTrip sampleReveal.PublicKey [0] := by
  intro k0 b hb
  refine ⟨(b.Next 33).1, ?_, ?_⟩
  · show liftDecode parseKey k0 b = _
    exact liftDecode_ok parseKey k0 _ b 33 (by rw [hb]; rfl)
  · rw [Buffer.Bytes_Next, hb]; rfl

/-- Decoding a buffer whose unread bytes are the wire bytes of `op` followed by
`s`: the operation is read back and the zero byte written last by the encoder,
followed by `s`, is left unread. -/
theorem DecodeBuffer_wire (L : Tzgo) (op o0 : CustomReveal) (p : Params) (s : List Byte)
    (b : Buffer) (hb : b.Bytes = op.wire L p ++ s)
    (hsz : L.MinSizeVersion OpType.reveal p.OperationTagsVersion - 1 ≤
      (((L.ManagerBytes op.Manager p).length + (L.KeyBytes op.PublicKey).length + 1
        + s.length : Nat) : Int))
    (hm : L.ManagerRoundTrip op.Manager p (L.KeyBytes op.PublicKey ++ 0 :: s))
    (hk : L.KeyRoundTrip op.PublicKey (0 :: s)) :
    ∃ b3, o0.DecodeBuffer L (some b) p = (op, some b3, none) ∧ b3.Bytes = 0 :: s := by
  have hb1 : b.Bytes = L.TagVersion OpType.reveal p.OperationTagsVersion
      :: (L.ManagerBytes op.Manager p ++ (L.KeyBytes op.PublicKey ++ 0 :: s)) := by
    rw [hb]; simp [CustomReveal.wire]
  have hprobe : ensureTagAndSize L (some b) o0.Kind p.OperationTagsVersion =
      (some { b with off := b.off + 1, lastRead := .opRead }, none) := by
    rw [ensureTagAndSize_cons L b _ _ _ _ hb1]
    have hlen : ¬ (((L.ManagerBytes op.Manager p ++ (L.KeyBytes op.PublicKey ++ 0 :: s)).length
        : Int) < L.MinSizeVersion o0.Kind p.OperationTagsVersion - 1) := by
      simp only [List.length_append, List.length_cons, CustomReveal.Kind]
      push_cast at hsz ⊢
      omega
    simp [CustomReveal.Kind] at hlen ⊢
    omega
  obtain ⟨b2, hm2, hb2⟩ := hm o0.Manager { b with off := b.off + 1, lastRead := .opRead }
    (Buffer.Bytes_advance b _ _ _ hb1)
  obtain ⟨b3, hk3, hb3⟩ := hk o0.PublicKey b2 hb2
  refine ⟨b3, ?_, hb3⟩
  rw [DecodeBuffer_of_probe_ok L o0 _ p _ hprobe, hm2]
  simp only [hk3]

/-- Claim C1: when the library reads back the manager fields and the key of
`op` and the minimum size of the reveal kind does not exceed the size of the
encoding, `DecodeBuffer` on the bytes that `EncodeBuffer` wrote into an empty
buffer succeeds and yields `op`, whatever the receiver held before; under
the default params `UnmarshalBinary` of `MarshalBinary` succeeds and yields `op`. -/
theorem decode_encode_roundtrip (L : Tzgo) (op o0 : CustomReveal) (p : Params)
    (hsz : L.MinSizeVersion OpType.reveal p.OperationTagsVersion - 1 ≤
      (((L.ManagerBytes op.Manager p).length + (L.KeyBytes op.PublicKey).length + 1 : Nat) : Int))
    (hm : L.ManagerRoundTrip op.Manager p (L.KeyBytes op.PublicKey ++ [0]))
    (hk : L.KeyRoundTrip op.PublicKey [0]) :
    (∃ b3, o0.DecodeBuffer L (some (op.EncodeBuffer L (Buffer.NewBuffer []) p).1) p
        = (op, some b3, none)) ∧
    (p = L.DefaultParams → o0.UnmarshalBinary L (op.MarshalBinary L).1 = (op, none)) := by
  have hgen : ∀ b : Buffer, b.Bytes = op.wire L p →
      ∃ b3, o0.DecodeBuffer L (some b) p = (op, some b3, none) := by
    intro b hb
    obtain ⟨b3, h3, _⟩ := DecodeBuffer_wire L op o0 p [] b (by simpa using hb)
      (by simpa using hsz) hm hk
    exact ⟨b3, h3⟩
  constructor
  · apply hgen
    simp [CustomReveal.EncodeBuffer, CustomReveal.wire, Buffer.Write, Buffer.WriteByte,
      Buffer.NewBuffer, Buffer.Bytes, CustomReveal.Kind]
  · intro hp
    subst hp
    obtain ⟨b3, h3⟩ := hgen (Buffer.NewBuffer (op.MarshalBinary L).1) (by
      rw [MarshalBinary_bytes]; rfl)
    simp [CustomReveal.UnmarshalBinary, h3]

/-- Witness for `decode_encode_roundtrip`: the sample operation under the
reference instance and its default params, decoded into a receiver that held
another operation. -/
theorem decode_encode_roundtrip_witness :
    invalidKeyReveal.UnmarshalBinary tzgoRef (sampleReveal.MarshalBinary tzgoRef).1
      = (sampleReveal, none) :=
  (decode_encode_roundtrip tzgoRef sampleReveal invalidKeyReveal tzgoRef.DefaultParams
    (by decide) (sample_manager_roundtrip _) sample_key_roundtrip).2 rfl

/-- Claim C7, evaluated on the code: under the same laws of the library,
`DecodeBuffer` on a buffer holding the encoding of `op` followed by `s` yields
`op` and leaves the encoder's final zero byte followed by `s` unread, which is
not `s`: it consumes one byte less than `EncodeBuffer` wrote. -/
theorem decode_leaves_terminator_unread (L : Tzgo) (op o0 : CustomReveal) (p : Params)
    (s : List Byte) (b : Buffer)
    (hb : b.Bytes = (op.EncodeBuffer L (Buffer.NewBuffer []) p).1.Bytes ++ s)
    (hsz : L.MinSizeVersion OpType.reveal p.OperationTagsVersion - 1 ≤
      (((L.ManagerBytes op.Manager p).length + (L.KeyBytes op.PublicKey).length + 1
        + s.length : Nat) : Int))
    (hm : L.ManagerRoundTrip op.Manager p (L.KeyBytes op.PublicKey ++ 0 :: s))
    (hk : L.KeyRoundTrip op.PublicKey (0 :: s)) :
    ∃ b3, o0.DecodeBuffer L (some b) p = (op, some b3, none) ∧ b3.Bytes = 0 :: s ∧
      b3.Bytes ≠ s := by
  have hw : (op.EncodeBuffer L (Buffer.NewBuffer []) p).1.Bytes = op.wire L p := by
    simp [CustomReveal.EncodeBuffer, CustomReveal.wire, Buffer.Write, Buffer.WriteByte,
      Buffer.NewBuffer, Buffer.Bytes, CustomReveal.Kind]
  obtain ⟨b3, h3, hb3⟩ := DecodeBuffer_wire L op o0 p s b (by rw [hb, hw]) hsz hm hk
  refine ⟨b3, h3, hb3, ?_⟩
  rw [hb3]
  intro h
  have := congrArg List.length h
  simp at this

/-- Witness for `decode_leaves_terminator_unread`: after decoding exactly the
bytes of the sample operation one byte, the zero, is still unread. -/
theorem decode_leaves_terminator_unread_witness :
    ∃ b3, sampleReveal.DecodeBuffer tzgoRef
        (some (Buffer.NewBuffer (sampleReveal.MarshalBinary tzgoRef).1)) tzgoRef.DefaultParams
        = (sampleReveal, some b3, none) ∧ b3.Bytes = [0] ∧ b3.Bytes ≠ [] :=
  decode_leaves_terminator_unread tzgoRef sampleReveal sampleReveal tzgoRef.DefaultParams []
    (Buffer.NewBuffer (sampleReveal.MarshalBinary tzgoRef).1) (by decide) (by decide)
    (sample_manager_roundtrip _) sample_key_roundtrip

/-- Witness for `tag_mismatch_restores_buffer`: a buffer that starts with the
transaction tag 108, decoded as a reveal. -/
theorem tag_mismatch_restores_buffer_witness :
    ∃ b1, b1.Bytes = [108, 0, 1] ∧
      ensureTagAndSize tzgoRef (some (Buffer.NewBuffer [108, 0, 1])) OpType.reveal 1
        = (some b1, some (Err.invalidTag 108 OpType.reveal)) ∧
      sampleReveal.DecodeBuffer tzgoRef (some (Buffer.NewBuffer [108, 0, 1])) ⟨1⟩
        = (sampleReveal, some b1, some (Err.invalidTag 108 OpType.reveal)) :=
  (tag_mismatch_restores_buffer tzgoRef (Buffer.NewBuffer [108, 0, 1]) 108 [0, 1]
    OpType.reveal 1 rfl (by decide)).elim
    fun b1 h => ⟨b1, h.1, h.2.1, h.2.2 sampleReveal ⟨1⟩ rfl rfl⟩

/-- Witness for `short_buffer_restores_buffer`: the reveal tag followed by two
bytes, where 57 are required. -/
theorem short_buffer_restores_buffer_witness :
    ∃ b1, b1.Bytes = [107, 0, 1] ∧
      ensureTagAndSize tzgoRef (some (Buffer.NewBuffer [107, 0, 1])) OpType.reveal 1
        = (some b1, some Err.shortBuffer) ∧
      sampleReveal.DecodeBuffer tzgoRef (some (Buffer.NewBuffer [107, 0, 1])) ⟨1⟩
        = (sampleReveal, some b1, some Err.shortBuffer) :=
  (short_buffer_restores_buffer tzgoRef (Buffer.NewBuffer [107, 0, 1]) [0, 1]
    OpType.reveal 1 rfl (by decide)).elim
    fun b1 h => ⟨b1, h.1, h.2.1, h.2.2 sampleReveal ⟨1⟩ rfl rfl⟩

/-- Under the reference instance with undefined minimum sizes, a buffer that
holds the reveal tag and a source and stops there makes `DecodeBuffer` return
`io.ErrShortBuffer`: the error comes from the field decoder of the library. -/
theorem truncated_fields_short_buffer_from_field_decoder :
    (ensureTagAndSize tzgoNoMinSize (some (Buffer.NewBuffer (107 :: sampleAddress.bytes)))
      OpType.reveal 1).2 = none ∧
    (sampleReveal.DecodeBuffer tzgoNoMinSize
      (some (Buffer.NewBuffer (107 :: sampleAddress.bytes))) ⟨1⟩).2.2 = some Err.shortBuffer := by
  decide

/-! ## Claims about the `reveal` workflow -/

/-- Claim C9: in a run of `reveal` that calls `Broadcast`, the signing request
carries the name that `GetPublicKey` was called with and the digest of the
operation as `Complete` left it, and the operation broadcast is that operation
with its signature set to the Ed25519 signature of the response and with its
source, contents and remaining fields unchanged. -/
theorem broadcast_receives_signed_completed_op {R E : Type} (A : Adapters R E)
    (rpcURL kmsSource : String) (opB : Op R)
    (h : Call.Broadcast opB ∈ (reveal A rpcURL kmsSource).1) :
    ∃ der data chainID opC sig,
      A.Complete chainID (revealOp A ⟨KeyType.Ed25519, data⟩) ⟨KeyType.Ed25519, data⟩
        = (opC, none) ∧
      A.AsymmetricSign kmsSource (A.Digest opC) = .ok sig ∧
      opB = { opC with Signature := ⟨SignatureType.Ed25519, sig⟩ } ∧
      opB.Source = opC.Source ∧ opB.Contents = opC.Contents ∧ opB.Rest = opC.Rest ∧
      (reveal A rpcURL kmsSource).1 =
        [Call.NewKeyManagementClient, Call.GetPublicKey kmsSource, Call.ParsePKIXPublicKey der,
          Call.NewClient rpcURL, Call.GetChainId,
          Call.Complete (revealOp A ⟨KeyType.Ed25519, data⟩) ⟨KeyType.Ed25519, data⟩,
          Call.AsymmetricSign kmsSource (A.Digest opC), Call.Broadcast opB,
          Call.Close, Call.Close] := by
  cases hnew : A.NewKeyManagementClient with
  | some e => simp [reveal, hnew] at h
  | none =>
  cases hpk : A.GetPublicKey kmsSource with
  | error e => simp [reveal, hnew, hpk] at h
  | ok pk =>
  cases hpem : A.pemDecode pk with
  | none => simp [reveal, hnew, hpk, hpem] at h
  | some der =>
  cases hparse : A.ParsePKIXPublicKey der with
  | error e => simp [reveal, hnew, hpk, hpem, hparse] at h
  | ok pub =>
  cases pub with
  | otherKey => simp [reveal, hnew, hpk, hpem, hparse] at h
  | ed25519 data =>
  cases hrpc : A.NewClient rpcURL with
  | some e => simp [reveal, hnew, hpk, hpem, hparse, hrpc] at h
  | none =>
  cases hchain : A.GetChainId with
  | error e => simp [reveal, hnew, hpk, hpem, hparse, hrpc, hchain] at h
  | ok chainID =>
  rcases hc : A.Complete chainID (revealOp A ⟨KeyType.Ed25519, data⟩) ⟨KeyType.Ed25519, data⟩
    with ⟨opC, _ | e⟩
  swap
  · simp [reveal, hnew, hpk, hpem, hparse, hrpc, hchain, hc] at h
  cases hsign : A.AsymmetricSign kmsSource (A.Digest opC) with
  | error e => simp [reveal, hnew, hpk, hpem, hparse, hrpc, hchain, hc, hsign] at h
  | ok sig =>
  refine ⟨der, data, chainID, opC, sig, hc, hsign, ?_⟩
  cases hb : A.Broadcast chainID { opC with Signature := ⟨SignatureType.Ed25519, sig⟩ } with
  | error e =>
    simp [reveal, hnew, hpk, hpem, hparse, hrpc, hchain, hc, hsign, hb] at h ⊢
    subst h
    simp
  | ok hash =>
    simp [reveal, hnew, hpk, hpem, hparse, hrpc, hchain, hc, hsign, hb] at h ⊢
    subst h
    simp

/-- Witness for `broadcast_receives_signed_completed_op`: the run with the
sample collaborators reaches `Broadcast`. -/
theorem broadcast_receives_signed_completed_op_witness :
    Call.Broadcast sampleSignedOp ∈ (reveal sampleAdapters "node" "key-1").1 ∧
      ∃ der data chainID opC sig,
        sampleAdapters.Complete chainID (revealOp sampleAdapters ⟨KeyType.Ed25519, data⟩)
          ⟨KeyType.Ed25519, data⟩ = (opC, none) ∧
        sampleAdapters.AsymmetricSign "key-1" (sampleAdapters.Digest opC) = .ok sig ∧
        sampleSignedOp = { opC with Signature := ⟨SignatureType.Ed25519, sig⟩ } ∧
        sampleSignedOp.Source = opC.Source ∧ sampleSignedOp.Contents = opC.Contents ∧
        sampleSignedOp.Rest = opC.Rest ∧
        (reveal sampleAdapters "node" "key-1").1 =
          [Call.NewKeyManagementClient, Call.GetPublicKey "key-1", Call.ParsePKIXPublicKey der,
            Call.NewClient "node", Call.GetChainId,
            Call.Complete (revealOp sampleAdapters ⟨KeyType.Ed25519, data⟩)
              ⟨KeyType.Ed25519, data⟩,
            Call.AsymmetricSign "key-1" (sampleAdapters.Digest opC),
            Call.Broadcast sampleSignedOp, Call.Close, Call.Close] :=
  ⟨by decide,
    broadcast_receives_signed_completed_op sampleAdapters "node" "key-1" sampleSignedOp
      (by decide)⟩

/-- Claim C8, evaluated on the code: in a run of `reveal` in which
`AsymmetricSign` is called and fails, `log.Fatalf` ends the process: no error is
returned to the caller and the deferred `Close` calls do not run. -/
theorem sign_failure_ends_process {R E : Type} (A : Adapters R E) (rpcURL kmsSource : String)
    (name : String) (data : List Byte) (e : E)
    (hcall : Call.AsymmetricSign name data ∈ (reveal A rpcURL kmsSource).1)
    (hfail : A.AsymmetricSign name data = .error e) :
    (reveal A rpcURL kmsSource).2 = Outcome.fatal e ∧
    (∀ w, (reveal A rpcURL kmsSource).2 ≠ Outcome.returned w) ∧
    Call.Close ∉ (reveal A rpcURL kmsSource).1 := by
  cases hnew : A.NewKeyManagementClient with
  | some e => simp [reveal, hnew] at hcall
  | none =>
  cases hpk : A.GetPublicKey kmsSource with
  | error e => simp [reveal, hnew, hpk] at hcall
  | ok pk =>
  cases hpem : A.pemDecode pk with
  | none => simp [reveal, hnew, hpk, hpem] at hcall
  | some der =>
  cases hparse : A.ParsePKIXPublicKey der with
  | error e => simp [reveal, hnew, hpk, hpem, hparse] at hcall
  | ok pub =>
  cases pub with
  | otherKey => simp [reveal, hnew, hpk, hpem, hparse] at hcall
  | ed25519 kd =>
  cases hrpc : A.NewClient rpcURL with
  | some e => simp [reveal, hnew, hpk, hpem, hparse, hrpc] at hcall
  | none =>
  cases hchain : A.GetChainId with
  | error e => simp [reveal, hnew, hpk, hpem, hparse, hrpc, hchain] at hcall
  | ok chainID =>
  rcases hc : A.Complete chainID (revealOp A ⟨KeyType.Ed25519, kd⟩) ⟨KeyType.Ed25519, kd⟩
    with ⟨opC, _ | e⟩
  swap
  · simp [reveal, hnew, hpk, hpem, hparse, hrpc, hchain, hc] at hcall
  cases hsign : A.AsymmetricSign kmsSource (A.Digest opC) with
  | error e1 =>
    simp [reveal, hnew, hpk, hpem, hparse, hrpc, hchain, hc, hsign] at hcall ⊢
    obtain ⟨hn, hd⟩ := hcall
    subst hn hd
    rw [hsign] at hfail
    cases hfail
    rfl
  | ok sig =>
    cases hb : A.Broadcast chainID { opC with Signature := ⟨SignatureType.Ed25519, sig⟩ } with
    | error e1 =>
      simp [reveal, hnew, hpk, hpem, hparse, hrpc, hchain, hc, hsign, hb] at hcall
      obtain ⟨hn, hd⟩ := hcall
      subst hn hd
      rw [hsign] at hfail
      cases hfail
    | ok hash =>
      simp [reveal, hnew, hpk, hpem, hparse, hrpc, hchain, hc, hsign, hb] at hcall
      obtain ⟨hn, hd⟩ := hcall
      subst hn hd
      rw [hsign] at hfail
      cases hfail

/-- Witness for `sign_failure_ends_process`: the sample collaborators with a
signer that refuses. -/
theorem sign_failure_ends_process_witness :
    (reveal refusingSigner "node" "key-1").2 = Outcome.fatal "denied" ∧
    (∀ w, (reveal refusingSigner "node" "key-1").2 ≠ Outcome.returned w) ∧
    Call.Close ∉ (reveal refusingSigner "node" "key-1").1 :=
  sign_failure_ends_process refusingSigner "node" "key-1" "key-1"
    (refusingSigner.Digest (refusingSigner.Complete [1, 2, 3, 4]
      (revealOp refusingSigner ⟨KeyType.Ed25519, List.replicate 32 42⟩)
      ⟨KeyType.Ed25519, List.replicate 32 42⟩).1)
    "denied" (by decide) rfl

/-- A run of `reveal` returns `nil` only after a `Broadcast` that succeeded. -/
theorem returns_nil_only_after_broadcast {R E : Type} (A : Adapters R E)
    (rpcURL kmsSource : String) (h : (reveal A rpcURL kmsSource).2 = Outcome.returned none) :
    ∃ chainID opB hash, A.Broadcast chainID opB = .ok hash ∧
      Call.Broadcast opB ∈ (reveal A rpcURL kmsSource).1 := by
  cases hnew : A.NewKeyManagementClient with
  | some e => simp [reveal, hnew] at h
  | none =>
  cases hpk : A.GetPublicKey kmsSource with
  | error e => simp [reveal, hnew, hpk] at h
  | ok pk =>
  cases hpem : A.pemDecode pk with
  | none => simp [reveal, hnew, hpk, hpem] at h
  | some der =>
  cases hparse : A.ParsePKIXPublicKey der with
  | error e => simp [reveal, hnew, hpk, hpem, hparse] at h
  | ok pub =>
  cases pub with
  | otherKey => simp [reveal, hnew, hpk, hpem, hparse] at h
  | ed25519 kd =>
  cases hrpc : A.NewClient rpcURL with
  | some e => simp [reveal, hnew, hpk, hpem, hparse, hrpc] at h
  | none =>
  cases hchain : A.GetChainId with
  | error e => simp [reveal, hnew, hpk, hpem, hparse, hrpc, hchain] at h
  | ok chainID =>
  rcases hc : A.Complete chainID (revealOp A ⟨KeyType.Ed25519, kd⟩) ⟨KeyType.Ed25519, kd⟩
    with ⟨opC, _ | e⟩
  swap
  · simp [reveal, hnew, hpk, hpem, hparse, hrpc, hchain, hc] at h
  cases hsign : A.AsymmetricSign kmsSource (A.Digest opC) with
  | error e1 => simp [reveal, hnew, hpk, hpem, hparse, hrpc, hchain, hc, hsign] at h
  | ok sig =>
    cases hb : A.Broadcast chainID { opC with Signature := ⟨SignatureType.Ed25519, sig⟩ } with
    | error e1 => simp [reveal, hnew, hpk, hpem, hparse, hrpc, hchain, hc, hsign, hb] at h
    | ok hash =>
      refine ⟨chainID, _, hash, hb, ?_⟩
      simp [reveal, hnew, hpk, hpem, hparse, hrpc, hchain, hc, hsign, hb]

/-- An error that `reveal` returns carries the error of the step that failed. -/
theorem returned_error_carries_cause {R E : Type} (A : Adapters R E)
    (rpcURL kmsSource : String) (w : WrappedError E)
    (h : (reveal A rpcURL kmsSource).2 = Outcome.returned (some w)) :
    A.NewKeyManagementClient = some w.cause ∨
    A.GetPublicKey kmsSource = .error w.cause ∨
    (∃ der, A.ParsePKIXPublicKey der = .error w.cause) ∨
    A.NewClient rpcURL = some w.cause ∨
    A.GetChainId = .error w.cause ∨
    (∃ chainID op key op1, A.Complete chainID op key = (op1, some w.cause)) ∨
    (∃ chainID op, A.Broadcast chainID op = .error w.cause) := by
  cases hnew : A.NewKeyManagementClient with
  | some e =>
    simp [reveal, hnew] at h
    subst h; simp
  | none =>
  cases hpk : A.GetPublicKey kmsSource with
  | error e =>
    simp [reveal, hnew, hpk] at h
    subst h; simp
  | ok pk =>
  cases hpem : A.pemDecode pk with
  | none => simp [reveal, hnew, hpk, hpem] at h
  | some der =>
  cases hparse : A.ParsePKIXPublicKey der with
  | error e =>
    simp [reveal, hnew, hpk, hpem, hparse] at h
    subst h
    exact Or.inr (Or.inr (Or.inl ⟨der, hparse⟩))
  | ok pub =>
  cases pub with
  | otherKey => simp [reveal, hnew, hpk, hpem, hparse] at h
  | ed25519 kd =>
  cases hrpc : A.NewClient rpcURL with
  | some e =>
    simp [reveal, hnew, hpk, hpem, hparse, hrpc] at h
    subst h; simp
  | none =>
  cases hchain : A.GetChainId with
  | error e =>
    simp [reveal, hnew, hpk, hpem, hparse, hrpc, hchain] at h
    subst h; simp
  | ok chainID =>
  rcases hc : A.Complete chainID (revealOp A ⟨KeyType.Ed25519, kd⟩) ⟨KeyType.Ed25519, kd⟩
    with ⟨opC, _ | e⟩
  swap
  · simp [reveal, hnew, hpk, hpem, hparse, hrpc, hchain, hc] at h
    subst h
    exact Or.inr (Or.inr (Or.inr (Or.inr (Or.inr (Or.inl ⟨_, _, _, _, hc⟩)))))
  cases hsign : A.AsymmetricSign kmsSource (A.Digest opC) with
  | error e1 => simp [reveal, hnew, hpk, hpem, hparse, hrpc, hchain, hc, hsign] at h
  | ok sig =>
    cases hb : A.Broadcast chainID { opC with Signature := ⟨SignatureType.Ed25519, sig⟩ } with
    | error e1 =>
      simp [reveal, hnew, hpk, hpem, hparse, hrpc, hchain, hc, hsign, hb] at h
      subst h
      exact Or.inr (Or.inr (Or.inr (Or.inr (Or.inr (Or.inr ⟨_, _, hb⟩)))))
    | ok hash => simp [reveal, hnew, hpk, hpem, hparse, hrpc, hchain, hc, hsign, hb] at h

end Tezpay
